import Mathlib

/-!
Verification development for the plugin publisher script (src/publish.py).
The Python source is shallowly embedded: pure fragments become Lean
functions, file reads become `Option` inputs, and `exit(1)` paths become
explicit result constructors.
-/

namespace Publish

/-- Semantic version triple, as handled by the `semantic_version` library
used by the script (the script only ever builds plain major.minor.patch
versions, extracted by the regex from digits and dots). -/
structure SemVer where
  major : Nat
  minor : Nat
  patch : Nat
deriving DecidableEq

/-- Strict semver precedence on plain triples. -/
def SemVer.lt (a b : SemVer) : Prop :=
  a.major < b.major ∨ (a.major = b.major ∧
    (a.minor < b.minor ∨ (a.minor = b.minor ∧ a.patch < b.patch)))

/-- Non-strict semver precedence. -/
def SemVer.le (a b : SemVer) : Prop := SemVer.lt a b ∨ a = b

instance : DecidableRel SemVer.lt := fun a b => by
  unfold SemVer.lt; exact inferInstance

instance : DecidableRel SemVer.le := fun a b => by
  unfold SemVer.le; exact inferInstance

/-- Canonical dotted rendering, as `str(Version(...))` produces. -/
def SemVer.render (v : SemVer) : String :=
  toString v.major ++ "." ++ toString v.minor ++ "." ++ toString v.patch

/-- The three increment kinds accepted at the prompt in `main`
(src/publish.py lines 206-209). -/
inductive Increment where
  | patch
  | minor
  | major
deriving DecidableEq

/-- Model of `Version.next_patch` from the `semantic_version` library for a
version without prerelease part (the only kind this script produces). -/
def nextPatch (v : SemVer) : SemVer := ⟨v.major, v.minor, v.patch + 1⟩

/-- Model of `Version.next_minor` for a version without prerelease part. -/
def nextMinor (v : SemVer) : SemVer := ⟨v.major, v.minor + 1, 0⟩

/-- Model of `Version.next_major` for a version without prerelease part. -/
def nextMajor (v : SemVer) : SemVer := ⟨v.major + 1, 0, 0⟩

/-- The increment dispatch in `main` (src/publish.py lines 212-217). -/
def nextVersion (cur : SemVer) : Increment → SemVer
  | .patch => nextPatch cur
  | .minor => nextMinor cur
  | .major => nextMajor cur

/-- One element of the `versions` array of update.json, as built by
`update_metadata` (src/publish.py lines 114-131).  The version string of the
JSON document is represented by its parsed semver triple; the script only
ever writes canonical renderings, which are in bijection with triples. -/
structure VersionEntry where
  version : SemVer
  download_url : String
  plugin_url : String
  last_updated : String
  changelog : String
  requires : String
  tested : String
  requires_php : String
  banners_low : String
  banners_high : String
  icons_1x : String
  icons_2x : String
deriving DecidableEq

/-- The update.json document: `{plugin, versions, stable_version?}`. -/
structure Manifest where
  plugin : String
  versions : List VersionEntry
  stable_version : Option SemVer
deriving DecidableEq

/-- Environment-derived configuration (R2_PUBLIC_URL, R2_BUCKET_NAME,
PLUGIN_DOMAIN) validated at startup (src/publish.py lines 19-38). -/
structure Config where
  r2_public_url : String
  r2_bucket_name : String
  plugin_domain : String
deriving DecidableEq

/-- Python `str.rstrip` for the single character `/`. -/
def rstripSlash (s : String) : String :=
  ⟨(s.data.reverse.dropWhile fun c => c = '/').reverse⟩

/-- Python `str.lstrip` for the single character `/`. -/
def lstripSlash (s : String) : String :=
  ⟨s.data.dropWhile fun c => c = '/'⟩

/-- Python `str.strip` for the single character `/`. -/
def stripSlash (s : String) : String :=
  rstripSlash (lstripSlash s)

/-- The `new_version_data` dictionary literal of `update_metadata`
(src/publish.py lines 114-131). -/
def newVersionData (cfg : Config) (slug : String) (nv : SemVer)
    (zipName changelogStr today : String) : VersionEntry where
  version := nv
  download_url :=
    rstripSlash cfg.r2_public_url ++ "/" ++ stripSlash cfg.r2_bucket_name
      ++ "/" ++ lstripSlash zipName
  plugin_url := cfg.plugin_domain ++ "/" ++ slug
  last_updated := today
  changelog := "<h4>" ++ nv.render ++ "</h4><ul>" ++ changelogStr ++ "</ul>"
  requires := "5.8"
  tested := "6.6"
  requires_php := "7.4"
  banners_low := cfg.plugin_domain ++ "/updates/banners/low.jpg"
  banners_high := cfg.plugin_domain ++ "/updates/banners/high.jpg"
  icons_1x := cfg.plugin_domain ++ "/updates/icons/icon-128x128.png"
  icons_2x := cfg.plugin_domain ++ "/updates/icons/icon-256x256.png"

/-- Descending order used as the sort relation by
`metadata['versions'].sort(key=..., reverse=True)`: an entry may precede
another when its version is at least as large. -/
def entryGE (a b : VersionEntry) : Prop := SemVer.le b.version a.version

instance : DecidableRel entryGE := fun a b =>
  inferInstanceAs (Decidable (SemVer.le b.version a.version))

/-- The merge step of `update_metadata` (src/publish.py lines 142-147):
drop any existing entry with the same version string, append the new entry,
re-sort descending by semantic version. -/
def upsertVersion (m : Manifest) (e : VersionEntry) : Manifest :=
  { m with
    versions :=
      List.insertionSort entryGE
        ((m.versions.filter fun v => v.version ≠ e.version) ++ [e]) }

/-- The stable-marking step of `update_metadata` (src/publish.py lines
157-162): the pointer is set unconditionally, with no membership check. -/
def markStable (m : Manifest) (v : SemVer) : Manifest :=
  { m with stable_version := some v }

/-- Whole pure core of `update_metadata` (src/publish.py lines 110-162).
`prior = none` models both a missing update.json and one that fails to
parse (both fall back to the fresh `{plugin, versions: []}` document); the
returned manifest is the last document dumped to disk. -/
def updateMetadata (cfg : Config) (prior : Option Manifest) (slug : String)
    (nv : SemVer) (zipName changelogStr today : String) (isStable : Bool) :
    Manifest :=
  let m0 := prior.getD { plugin := slug, versions := [], stable_version := none }
  let m1 := upsertVersion m0 (newVersionData cfg slug nv zipName changelogStr today)
  if isStable then markStable m1 nv else m1

/-!
## Archive construction (`create_zip`, src/publish.py lines 78-108)

The source tree is embedded as a rooted forest of named nodes.  `os.walk`
is modelled by `walkAll`, which enumerates every directory of the forest as
a pair of its path relative to the plugin directory and its file names, in
top-down order, the plugin directory itself first.  The absolute path of a
walked directory, whose components the script inspects via
`root_path.parts`, is `rootParts ++ rel` where `rootParts` are the
components of the resolved plugin directory path.
-/

/-- A node of the source tree: a plain file or a directory with children. -/
inductive FSNode where
  | file (name : String) : FSNode
  | dir (name : String) (children : List FSNode) : FSNode

/-- The `files` component that `os.walk` reports for a directory. -/
def filesOf (children : List FSNode) : List String :=
  children.filterMap fun n =>
    match n with
    | .file f => some f
    | .dir _ _ => none

mutual

/-- Directories contributed to the walk by one node (none for a file, the
node itself and its descendants for a directory), as pairs of
path-relative-to-root and file names. -/
def walkNode (rel : List String) : FSNode → List (List String × List String)
  | .file _ => []
  | .dir n cs => (rel ++ [n], filesOf cs) :: walkChildren (rel ++ [n]) cs

/-- Walk of a list of sibling nodes, in order. -/
def walkChildren (rel : List String) : List FSNode → List (List String × List String)
  | [] => []
  | c :: cs => walkNode rel c ++ walkChildren rel cs

end

/-- `os.walk(plugin_dir)`: the plugin directory itself first, then every
subdirectory top-down. -/
def walkAll (children : List FSNode) : List (List String × List String) :=
  ([], filesOf children) :: walkChildren [] children

/-- `EXCLUDE_EXTENSIONS` (src/publish.py line 41). -/
def EXCLUDE_EXTENSIONS : List String :=
  [".zip", ".tar", ".gz", ".tgz", ".bz2", ".rar", ".7z"]

/-- `EXCLUDE_DIRS` (src/publish.py line 42). -/
def EXCLUDE_DIRS : List String := ["py", "old"]

/-- `pathlib.PurePath.suffix` on a file name: the part from the last dot
on, empty when there is no dot, when the only dot is the leading
character, or when the dot is the final character. -/
def pathSuffix (name : List Char) : List Char :=
  let rev := name.reverse
  let ext := rev.takeWhile fun c => c ≠ '.'
  let rest := rev.dropWhile fun c => c ≠ '.'
  match rest with
  | [] => []
  | _ :: r2 => if ext = [] ∨ r2 = [] then [] else '.' :: ext.reverse

/-- `file_path.suffix.lower()` of a file name. -/
def fileSuffixLower (name : String) : String :=
  ⟨(pathSuffix name.data).map Char.toLower⟩

/-- An entry written into the zip archive: either a directory entry (only
produced for directories named `logs`) or a file entry, each carrying the
component list of its archive name. -/
inductive ZipEntry where
  | dir (arc : List String) : ZipEntry
  | file (arc : List String) : ZipEntry
deriving DecidableEq

/-- The body of the `os.walk` loop of `create_zip` for one directory
(src/publish.py lines 84-103): skip directories with an excluded component
anywhere in their absolute path; keep a directory named `logs` as a bare
directory entry and nothing beneath it; otherwise add each file unless it
is under `logs`, carries an excluded extension, or is named `.env`. -/
def zipEntriesFor (rootParts : List String) (slug : String)
    (rel fs : List String) : List ZipEntry :=
  if (rootParts ++ rel).any fun p => p ∈ EXCLUDE_DIRS then []
  else if "logs" ∈ rootParts ++ rel then
    if (rootParts ++ rel).getLast? = some "logs" then [ZipEntry.dir (slug :: rel)]
    else []
  else
    fs.filterMap fun f =>
      if "logs" ∈ rootParts ++ rel ++ [f] ∨ fileSuffixLower f ∈ EXCLUDE_EXTENSIONS
          ∨ f = ".env" then none
      else some (ZipEntry.file (slug :: (rel ++ [f])))

/-- The full entry list of the archive built by `create_zip`
(src/publish.py lines 78-108). -/
def createZip (rootParts : List String) (children : List FSNode)
    (slug : String) : List ZipEntry :=
  (walkAll children).flatMap fun p => zipEntriesFor rootParts slug p.1 p.2

/-- The archive file name `{plugin_slug}-{new_version}.zip`
(src/publish.py line 80). -/
def zipFileName (slug : String) (v : SemVer) : String :=
  slug ++ "-" ++ v.render ++ ".zip"

/-!
## Version marker handling (`get_current_version`, `update_plugin_version`)

The two regular expressions of the script are modelled directly on
character lists.  Text is ASCII here; `\s` is modelled by the six ASCII
whitespace characters Python matches, `[\d.]` by decimal digits and the
dot.  Both character classes are disjoint from the literals that follow
them in the patterns, so greedy scanning without backtracking is exact.
-/

/-- The characters matched by `\s` in an ASCII text. -/
def isSpaceChar (c : Char) : Bool :=
  c = ' ' ∨ c = '\t' ∨ c = '\n' ∨ c = '\r' ∨ c = '\x0b' ∨ c = '\x0c'

/-- The characters matched by `[\d.]`. -/
def isVerChar (c : Char) : Bool := c.isDigit ∨ c = '.'

/-- The single-quote character, written by code point. -/
def sq : Char := Char.ofNat 39

/-- Consume an exact literal from the front of the input, returning the
remainder on success. -/
def eatLit : List Char → List Char → Option (List Char)
  | [], l => some l
  | _ :: _, [] => none
  | c :: cs, x :: xs => if x = c then eatLit cs xs else none

/-- Attempt of the pattern `(Version:\s*)[\d.]+` at the start of the
input; on success returns the text of group 1, the digit-and-dot run, and
the remainder after the match. -/
def matchHeaderAt (l : List Char) : Option (List Char × List Char × List Char) :=
  match eatLit ("Version:".data) l with
  | none => none
  | some r1 =>
    let sp := r1.takeWhile isSpaceChar
    let r2 := r1.dropWhile isSpaceChar
    let ds := r2.takeWhile isVerChar
    if ds = [] then none
    else some ("Version:".data ++ sp, ds, r2.dropWhile isVerChar)

/-- Attempt of the pattern
`(define\s*\(\s*'HSPORTAL_PLUGIN_VERSION'\s*,\s*')[\d.]+(')` at the start
of the input; on success returns the text of group 1, the digit-and-dot
run, and the remainder after the closing quote. -/
def matchDefineAt (l : List Char) : Option (List Char × List Char × List Char) := do
  let r1 ← eatLit ("define".data) l
  let sp1 := r1.takeWhile isSpaceChar
  let r2 := r1.dropWhile isSpaceChar
  let r3 ← eatLit (['(']) r2
  let sp2 := r3.takeWhile isSpaceChar
  let r4 := r3.dropWhile isSpaceChar
  let r5 ← eatLit (sq :: ("HSPORTAL_PLUGIN_VERSION".data) ++ [sq]) r4
  let sp3 := r5.takeWhile isSpaceChar
  let r6 := r5.dropWhile isSpaceChar
  let r7 ← eatLit ([',']) r6
  let sp4 := r7.takeWhile isSpaceChar
  let r8 := r7.dropWhile isSpaceChar
  let r9 ← eatLit ([sq]) r8
  let ds := r9.takeWhile isVerChar
  let r10 := r9.dropWhile isVerChar
  if ds = [] then none
  else
    match r10 with
    | c :: r11 =>
      if c = sq then
        some (("define".data) ++ sp1 ++ ['('] ++ sp2
            ++ (sq :: ("HSPORTAL_PLUGIN_VERSION".data) ++ [sq]) ++ sp3
            ++ [','] ++ sp4 ++ [sq], ds, r11)
      else none
    | [] => none

/-- A matcher for `re.sub`: at a position it either fails or yields the
text to emit before the replacement, the text to emit after it, and the
remainder of the input after the whole match. -/
def SubMatcher : Type := List Char → Option (List Char × List Char × List Char)

/-- `matchHeaderAt` as a substitution matcher: the emitted parts are group
1 and nothing, per the replacement template of src/publish.py line 64. -/
def headerSub : SubMatcher := fun l =>
  (matchHeaderAt l).map fun x => (x.1, [], x.2.2)

/-- `matchDefineAt` as a substitution matcher: the emitted parts are group
1 and group 2 (the closing quote), per the replacement template of
src/publish.py lines 66-70. -/
def defineSub : SubMatcher := fun l =>
  (matchDefineAt l).map fun x => (x.1, [sq], x.2.2)

/-- `re.sub` driver: scan left to right, replacing every non-overlapping
match and restarting after it.  Fuel is the input length; every step
consumes at least one character, so the fuel never runs out. -/
def subAllAux (m : SubMatcher) (repl : List Char) : Nat → List Char → List Char
  | 0, l => l
  | _ + 1, [] => []
  | fuel + 1, c :: cs =>
    match m (c :: cs) with
    | some (pre, post, rest) => pre ++ repl ++ post ++ subAllAux m repl fuel rest
    | none => c :: subAllAux m repl fuel cs

/-- `re.sub(pattern, group1 ++ repl ++ group2, content)`. -/
def subAll (m : SubMatcher) (repl : List Char) (l : List Char) : List Char :=
  subAllAux m repl l.length l

/-- Whether the pattern of a matcher occurs anywhere in the text. -/
def occursIn (m : SubMatcher) (l : List Char) : Bool :=
  l.tails.any fun s => (m s).isSome

/-- The header substitution of `update_plugin_version`
(src/publish.py line 64). -/
def subHeader (nv : List Char) (content : List Char) : List Char :=
  subAll headerSub nv content

/-- The constant substitution of `update_plugin_version`
(src/publish.py lines 66-70). -/
def subDefine (nv : List Char) (content : List Char) : List Char :=
  subAll defineSub nv content

/-- `update_plugin_version` (src/publish.py lines 58-76): read the file
(`none` models an unreadable file, which the handler turns into
`exit(1)`), apply both substitutions to the in-memory copy, and write the
result back; the written content is returned. -/
def updatePluginVersion (file : Option (List Char)) (nv : List Char) :
    Option (List Char) :=
  file.map fun content => subDefine nv (subHeader nv content)

/-- `re.search` for the header pattern (src/publish.py line 49): the
digit-and-dot group of the leftmost match. -/
def searchHeader : List Char → Option (List Char)
  | [] => none
  | c :: cs =>
    match matchHeaderAt (c :: cs) with
    | some x => some x.2.1
    | none => searchHeader cs

/-- Split a character list at every dot, keeping empty groups, as
`major.minor.patch` splitting inside the `semantic_version` parser. -/
def splitDots : List Char → List (List Char)
  | [] => [[]]
  | c :: cs =>
    if c = '.' then [] :: splitDots cs
    else
      match splitDots cs with
      | [] => [[c]]
      | g :: gs => (c :: g) :: gs

/-- A numeric identifier of the semver grammar: nonempty, all digits, no
leading zero. -/
def isNumPart (l : List Char) : Bool :=
  match l with
  | [] => false
  | ['0'] => true
  | c :: cs => c ≠ '0' ∧ (c :: cs).all Char.isDigit

/-- Decimal value of a digit run. -/
def digitsToNat (l : List Char) : Nat :=
  l.foldl (fun acc c => acc * 10 + (c.toNat - 48)) 0

/-- Model of the `semantic_version.Version` constructor restricted to
inputs made of digits and dots (the only inputs the script ever feeds it):
exactly three dot-separated numeric identifiers without leading zeros;
anything else raises `ValueError`, modelled as `none`. -/
def parseSemVer (l : List Char) : Option SemVer :=
  match splitDots l with
  | [a, b, c] =>
    if isNumPart a ∧ isNumPart b ∧ isNumPart c then
      some ⟨digitsToNat a, digitsToNat b, digitsToNat c⟩
    else none
  | _ => none

/-- Outcome of `get_current_version` (src/publish.py lines 44-56). -/
inductive VersionReadResult where
  | exitNoFile
  | exitNoMatch
  | uncaughtParseError
  | ok (v : SemVer)
deriving DecidableEq

/-- `get_current_version`: a missing file and a missing marker are turned
into logged `exit(1)` calls; a marker whose digit run is not a valid
three-part semver makes the `Version` constructor raise outside the
`FileNotFoundError` handler. -/
def getCurrentVersion (file : Option (List Char)) : VersionReadResult :=
  match file with
  | none => .exitNoFile
  | some content =>
    match searchHeader content with
    | none => .exitNoMatch
    | some ds =>
      match parseSemVer ds with
      | none => .uncaughtParseError
      | some v => .ok v

/-- The stable pointer, when present, names a version that exists in the
sequence. -/
@[reducible] def stableOk (m : Manifest) : Prop :=
  match m.stable_version with
  | none => True
  | some s => ∃ e ∈ m.versions, e.version = s

/-- The manifest invariant of the spec: one entry per distinct version
string, versions sorted descending by semver precedence, stable pointer
resolving to a member entry. -/
@[reducible] def ManifestInv (m : Manifest) : Prop :=
  m.versions.Pairwise (fun a b => a.version ≠ b.version)
  ∧ m.versions.Pairwise entryGE
  ∧ stableOk m

/-!
## Concrete example inputs used by the witnesses
-/

/-- A version entry with the given version and empty auxiliary fields. -/
@[reducible] def exEntry (v : SemVer) : VersionEntry :=
  ⟨v, "", "", "", "", "", "", "", "", "", "", ""⟩

/-- A concrete configuration. -/
@[reducible] def exConfig : Config :=
  ⟨"https://pub.example", "bucket", "https://example.com"⟩

/-- A concrete prior manifest satisfying the invariant, with a stable
pointer and versions whose ordering distinguishes semver comparison from
string comparison. -/
@[reducible] def exPrior : Manifest :=
  ⟨"hsportal-youtube-upload", [exEntry ⟨1, 9, 0⟩, exEntry ⟨1, 2, 0⟩],
    some ⟨1, 9, 0⟩⟩

/-- A concrete manifest holding only version 1.0.0, used to exhibit the
missing membership check of the stable-marking step. -/
@[reducible] def exSingle : Manifest := ⟨"hsportal-youtube-upload", [exEntry ⟨1, 0, 0⟩], none⟩

/-- A concrete source tree with a populated logs directory. -/
@[reducible] def exLogsTree : List FSNode := [FSNode.dir "logs" [FSNode.file "debug.txt"]]

/-!
## Supporting lemmas
-/

/-- Semver precedence is total. -/
theorem SemVer.le_total (a b : SemVer) : SemVer.le a b ∨ SemVer.le b a := by
  rcases a with ⟨a1, a2, a3⟩
  rcases b with ⟨b1, b2, b3⟩
  simp only [SemVer.le, SemVer.lt, SemVer.mk.injEq]
  omega

/-- Semver precedence is transitive. -/
theorem SemVer.le_trans {a b c : SemVer}
    (h1 : SemVer.le a b) (h2 : SemVer.le b c) : SemVer.le a c := by
  rcases a with ⟨a1, a2, a3⟩
  rcases b with ⟨b1, b2, b3⟩
  rcases c with ⟨c1, c2, c3⟩
  simp only [SemVer.le, SemVer.lt, SemVer.mk.injEq] at h1 h2 ⊢
  omega

instance : IsTotal VersionEntry entryGE :=
  ⟨fun a b => (SemVer.le_total b.version a.version).elim Or.inl Or.inr⟩

instance : IsTrans VersionEntry entryGE :=
  ⟨fun _ _ _ h1 h2 => SemVer.le_trans h2 h1⟩

/-- The last element reported by `getLast?` is a member of the list. -/
theorem mem_of_getLastSome : ∀ {l : List String} {a : String},
    l.getLast? = some a → a ∈ l
  | [c], a, h => by
    simp only [List.getLast?_singleton, Option.some.injEq] at h
    simp [h]
  | c :: c2 :: cs, a, h => by
    rw [List.getLast?_cons_cons] at h
    exact List.mem_cons_of_mem c (mem_of_getLastSome h)

/-- A list mapped to empty lists flattens to the empty list. -/
theorem flatMap_eq_nil_of_forall {α β : Type} (f : α → List β) :
    ∀ (L : List α), (∀ x ∈ L, f x = []) → L.flatMap f = []
  | [], _ => rfl
  | hd :: tl, h => by
    rw [List.flatMap_cons, h hd (List.mem_cons_self hd tl),
      flatMap_eq_nil_of_forall f tl fun x hx => h x (List.mem_cons_of_mem hd hx)]
    rfl

/-- If the pattern of a matcher occurs nowhere in the text, the
substitution driver leaves the text unchanged, for any sufficient fuel. -/
theorem subAllAux_no_match (m : SubMatcher) (repl : List Char) :
    ∀ (fuel : Nat) (l : List Char), l.length ≤ fuel →
      occursIn m l = false → subAllAux m repl fuel l = l := by
  intro fuel
  induction fuel with
  | zero => intro l _ _; rfl
  | succ n ih =>
    intro l hl hocc
    cases l with
    | nil => rfl
    | cons c cs =>
      have hocc2 : ((m (c :: cs)).isSome || cs.tails.any fun s => (m s).isSome)
          = false := by
        simpa [occursIn, List.tails_cons] using hocc
      rw [Bool.or_eq_false_iff] at hocc2
      have hnone : m (c :: cs) = none :=
        Option.not_isSome_iff_eq_none.1 (by simp [hocc2.1])
      have hrest : occursIn m cs = false := hocc2.2
      unfold subAllAux
      rw [hnone, ih cs (by simpa using Nat.le_of_succ_le_succ hl) hrest]

/-- `re.sub` with a pattern absent from the text returns it unchanged. -/
theorem subAll_no_match (m : SubMatcher) (repl : List Char) (l : List Char)
    (h : occursIn m l = false) : subAll m repl l = l :=
  subAllAux_no_match m repl l.length l (Nat.le_refl _) h

/-- `re.search` fails exactly when the pattern occurs nowhere. -/
theorem searchHeader_eq_none_iff (l : List Char) :
    searchHeader l = none ↔ occursIn headerSub l = false := by
  induction l with
  | nil =>
    simp only [searchHeader, occursIn]
    decide
  | cons c cs ih =>
    have hdr : (headerSub (c :: cs)).isSome = (matchHeaderAt (c :: cs)).isSome := by
      unfold headerSub
      cases matchHeaderAt (c :: cs) <;> rfl
    unfold searchHeader
    cases h : matchHeaderAt (c :: cs) with
    | some x =>
      simp only [occursIn, List.tails_cons, List.any_cons, hdr, h]
      simp
    | none =>
      simp only [occursIn, List.tails_cons, List.any_cons, hdr, h]
      simpa [occursIn] using ih

/-- Inversion for file entries of the built archive: every file entry
comes from a walked directory that survived every exclusion rule. -/
theorem file_mem_createZip {rootParts : List String} {cs : List FSNode}
    {slug : String} {arc : List String}
    (h : ZipEntry.file arc ∈ createZip rootParts cs slug) :
    ∃ rel fs f, (rel, fs) ∈ walkAll cs ∧ f ∈ fs
      ∧ ((rootParts ++ rel).any fun p => p ∈ EXCLUDE_DIRS) = false
      ∧ "logs" ∉ rootParts ++ rel ++ [f]
      ∧ fileSuffixLower f ∉ EXCLUDE_EXTENSIONS
      ∧ f ≠ ".env"
      ∧ arc = slug :: (rel ++ [f]) := by
  rcases List.mem_flatMap.1 h with ⟨⟨rel, fs⟩, hw, hin⟩
  refine ⟨rel, fs, ?_⟩
  unfold zipEntriesFor at hin
  by_cases h1 : ((rootParts ++ rel).any fun p => p ∈ EXCLUDE_DIRS) = true
  · rw [if_pos h1] at hin
    exact absurd hin (List.not_mem_nil _)
  · rw [if_neg h1] at hin
    by_cases h2 : "logs" ∈ rootParts ++ rel
    · rw [if_pos h2] at hin
      by_cases h3 : (rootParts ++ rel).getLast? = some "logs"
      · rw [if_pos h3] at hin
        simp at hin
      · rw [if_neg h3] at hin
        exact absurd hin (List.not_mem_nil _)
    · rw [if_neg h2] at hin
      rcases List.mem_filterMap.1 hin with ⟨f, hf, heq⟩
      by_cases h4 : "logs" ∈ rootParts ++ rel ++ [f]
          ∨ fileSuffixLower f ∈ EXCLUDE_EXTENSIONS ∨ f = ".env"
      · rw [if_pos h4] at heq
        exact absurd heq (by simp)
      · rw [if_neg h4] at heq
        push_neg at h4
        refine ⟨f, hw, hf, by simpa using h1, h4.1, h4.2.1, h4.2.2, ?_⟩
        have := Option.some.inj heq
        exact (ZipEntry.file.inj this).symm

/-!
## Claims
-/

/-- Claim C2: for every semantic version and every increment kind, the
computed next version follows the standard advancement formulas, and is in
every case strictly greater than the current version under semver
precedence. -/
theorem claim2_next_version (v : SemVer) :
    nextVersion v Increment.major = ⟨v.major + 1, 0, 0⟩
    ∧ nextVersion v Increment.minor = ⟨v.major, v.minor + 1, 0⟩
    ∧ nextVersion v Increment.patch = ⟨v.major, v.minor, v.patch + 1⟩
    ∧ ∀ k, SemVer.lt v (nextVersion v k) := by
  refine ⟨rfl, rfl, rfl, fun k => ?_⟩
  rcases v with ⟨a, b, c⟩
  cases k <;> simp [nextVersion, nextPatch, nextMinor, nextMajor, SemVer.lt]

/-- Claim C6: merging the same entry twice leaves exactly one entry
carrying its version string in the sequence; re-publishing replaces
rather than duplicates. -/
theorem claim6_upsert_idempotent (m : Manifest) (e : VersionEntry) :
    ((upsertVersion (upsertVersion m e) e).versions.countP
      fun v => v.version = e.version) = 1 := by
  have key : ∀ m2 : Manifest,
      ((upsertVersion m2 e).versions.countP fun v => v.version = e.version) = 1 := by
    intro m2
    unfold upsertVersion
    rw [(List.perm_insertionSort entryGE _).countP_eq, List.countP_append]
    have h0 : ((m2.versions.filter fun v => v.version ≠ e.version).countP
        fun v => v.version = e.version) = 0 := by
      rw [List.countP_eq_zero]
      intro a ha
      have := (List.mem_filter.1 ha).2
      simp only [decide_eq_true_eq] at this ⊢
      exact this
    rw [h0]
    simp
  exact key (upsertVersion m e)

/-- Claim C3 (code behavior): the stable-marking step of
`update_metadata` sets the pointer unconditionally; marking a version
absent from the sequence yields a dangling pointer and no error, where
the claim demands an `UnknownVersionError` failure. -/
theorem claim3_mark_stable_unchecked :
    (markStable exSingle ⟨2, 0, 0⟩).stable_version = some ⟨2, 0, 0⟩
    ∧ (∀ e ∈ (markStable exSingle ⟨2, 0, 0⟩).versions,
        e.version ≠ ⟨2, 0, 0⟩)
    ∧ ¬ stableOk (markStable exSingle ⟨2, 0, 0⟩) := by
  refine ⟨rfl, by decide, fun hc => ?_⟩
  have h2 : ∃ e ∈ (markStable exSingle ⟨2, 0, 0⟩).versions,
      e.version = (⟨2, 0, 0⟩ : SemVer) := hc
  exact absurd h2 (by decide)

/-- Claim C10: when the resolved plugin directory path itself contains an
excluded component (`py` or `old`), every walked directory is skipped and
the archive receives no entries at all. -/
theorem claim10_excluded_root (rootParts : List String) (cs : List FSNode)
    (slug : String) (h : (rootParts.any fun p => p ∈ EXCLUDE_DIRS) = true) :
    createZip rootParts cs slug = [] := by
  unfold createZip
  apply flatMap_eq_nil_of_forall
  intro x _
  unfold zipEntriesFor
  rw [if_pos]
  rw [List.any_append, h]
  rfl

/-- Claim C10 witness: a plugin directory under a path component `py`
produces an archive with no entries. -/
theorem claim10_witness :
    createZip (["home", "py"]) ([FSNode.file "index.php"]) "plug" = [] :=
  claim10_excluded_root _ _ _ (by decide)

/-- Claim C5 counterexample: a file named `secret.env` placed in the
plugin directory is present in the built archive, contradicting the
claim that files carrying the secret-file name are always skipped. -/
theorem claim5_counterexample :
    ZipEntry.file ["plug", "secret.env"] ∈
      createZip (["home"]) ([FSNode.file "secret.env"]) "plug" := by
  decide

/-- Claim C5 as amended: the name the code excludes everywhere is
exactly `.env`, the local credential file of the script; no file entry of
any built archive is named `.env`. -/
theorem claim5_env_excluded (rootParts : List String) (cs : List FSNode)
    (slug : String) (arc : List String)
    (h : ZipEntry.file arc ∈ createZip rootParts cs slug) :
    arc.getLast? ≠ some ".env" := by
  rcases file_mem_createZip h with ⟨rel, fs, f, _, _, _, _, _, hne, harc⟩
  subst harc
  rw [show slug :: (rel ++ [f]) = (slug :: rel) ++ [f] from rfl,
    List.getLast?_concat]
  simp [hne]

/-- Claim C5 witness: an ordinary file is archived and its entry name is
not `.env`. -/
theorem claim5_witness :
    ZipEntry.file ["plug", "readme.txt"] ∈
        createZip (["home"]) ([FSNode.file "readme.txt"]) "plug"
    ∧ (["plug", "readme.txt"] : List String).getLast? ≠ some ".env" :=
  ⟨by decide,
    claim5_env_excluded (["home"]) ([FSNode.file "readme.txt"]) "plug"
      (["plug", "readme.txt"]) (by decide)⟩

/-- Claim C7: a walked directory named `logs` whose absolute path has no
excluded component contributes its bare directory entry to the archive,
and no file entry of the archive lies under a `logs` component. -/
theorem claim7_logs_directory (rootParts : List String) (cs : List FSNode)
    (slug : String) :
    (∀ rel fs, (rel, fs) ∈ walkAll cs →
        ((rootParts ++ rel).any fun p => p ∈ EXCLUDE_DIRS) = false →
        (rootParts ++ rel).getLast? = some "logs" →
        ZipEntry.dir (slug :: rel) ∈ createZip rootParts cs slug)
    ∧ (∀ arc, ZipEntry.file arc ∈ createZip rootParts cs slug →
        "logs" ∉ arc.tail) := by
  constructor
  · intro rel fs hw hx hlast
    apply List.mem_flatMap.2
    refine ⟨(rel, fs), hw, ?_⟩
    unfold zipEntriesFor
    rw [if_neg (by simp [hx]), if_pos (mem_of_getLastSome hlast), if_pos hlast]
    simp
  · intro arc h
    rcases file_mem_createZip h with ⟨rel, fs, f, _, _, _, hnl, _, _, harc⟩
    subst harc
    rw [List.tail_cons]
    intro hmem
    apply hnl
    rcases List.mem_append.1 hmem with h5 | h5
    · exact List.mem_append_left _ (List.mem_append_right _ h5)
    · exact List.mem_append_right _ h5

/-- Claim C7 witness: a populated logs directory appears in the archive
as a bare directory entry, and an archived file entry has no logs
component. -/
theorem claim7_witness :
    ZipEntry.dir ["plug", "logs"] ∈ createZip (["home"]) exLogsTree "plug"
    ∧ "logs" ∉ (["plug", "readme.txt"] : List String).tail :=
  ⟨(claim7_logs_directory (["home"]) exLogsTree "plug").1 ["logs"] ["debug.txt"]
      (by decide) (by decide) (by decide),
    (claim7_logs_directory (["home"]) ([FSNode.file "readme.txt"]) "plug").2
      ["plug", "readme.txt"] (by decide)⟩

/-- Claim C1: starting from no manifest or from a prior manifest
satisfying the invariant, the manifest written by the metadata update has
pairwise-distinct version strings, is sorted descending by semantic
version comparison, and its stable pointer, when present, resolves to a
member entry. -/
theorem claim1_manifest_invariant (cfg : Config) (prior : Option Manifest)
    (slug : String) (nv : SemVer) (zipName changelogStr today : String)
    (isStable : Bool) (hprior : ∀ p, prior = some p → ManifestInv p) :
    ManifestInv (updateMetadata cfg prior slug nv zipName changelogStr today isStable) := by
  have hm0 : ManifestInv (prior.getD ⟨slug, [], none⟩) := by
    cases prior with
    | none => exact ⟨List.Pairwise.nil, List.Pairwise.nil, trivial⟩
    | some p => exact hprior p rfl
  set m0 := prior.getD ⟨slug, [], none⟩ with hm0def
  set entry := newVersionData cfg slug nv zipName changelogStr today with hedef
  have hev : entry.version = nv := rfl
  set vs := (m0.versions.filter fun v => v.version ≠ entry.version) ++ [entry]
    with hvs
  have hperm : (List.insertionSort entryGE vs).Perm vs :=
    List.perm_insertionSort entryGE vs
  have hdist : (List.insertionSort entryGE vs).Pairwise
      fun a b => a.version ≠ b.version := by
    apply (hperm.pairwise_iff fun hab => hab.symm).2
    apply List.pairwise_append.2
    refine ⟨List.Pairwise.sublist (List.filter_sublist _) hm0.1,
      List.pairwise_singleton _ _, ?_⟩
    intro a ha b hb
    rw [List.mem_singleton] at hb
    subst hb
    have := (List.mem_filter.1 ha).2
    simpa using this
  have hsorted : (List.insertionSort entryGE vs).Pairwise entryGE :=
    List.sorted_insertionSort entryGE vs
  have hmem_entry : entry ∈ List.insertionSort entryGE vs :=
    hperm.mem_iff.2 (List.mem_append_right _ (List.mem_singleton.2 rfl))
  have hstable : ∀ s, m0.stable_version = some s →
      ∃ e ∈ List.insertionSort entryGE vs, e.version = s := by
    intro s hs
    have hok : stableOk m0 := hm0.2.2
    rw [stableOk, hs] at hok
    rcases hok with ⟨e, he, hev2⟩
    by_cases hsnv : s = nv
    · exact ⟨entry, hmem_entry, by rw [hev, hsnv]⟩
    · refine ⟨e, hperm.mem_iff.2 (List.mem_append_left _ ?_), hev2⟩
      apply List.mem_filter.2
      refine ⟨he, ?_⟩
      simp only [decide_eq_true_eq, hev]
      rw [hev2]
      exact hsnv
  unfold updateMetadata
  cases isStable with
  | true =>
    simp only [if_pos]
    exact ⟨hdist, hsorted, ⟨entry, hmem_entry, hev⟩⟩
  | false =>
    simp only [if_neg]
    refine ⟨hdist, hsorted, ?_⟩
    unfold stableOk upsertVersion
    cases hs : m0.stable_version with
    | none => trivial
    | some s => exact hstable s hs

/-- Claim C1 witness: publishing version 1.10.0 over a prior manifest
holding 1.9.0 (stable) and 1.2.0 preserves the invariant; in particular
1.10.0 sorts above 1.9.0. -/
theorem claim1_witness :
    ManifestInv exPrior
    ∧ ManifestInv (updateMetadata exConfig (some exPrior)
        "hsportal-youtube-upload" ⟨1, 10, 0⟩ "hsportal-youtube-upload-1.10.0.zip"
        "<li>item</li>" "2026-10-12" false) := by
  have h0 : ManifestInv exPrior := by decide
  exact ⟨h0, claim1_manifest_invariant _ _ _ _ _ _ _ _
    fun p hp => (Option.some.inj hp) ▸ h0⟩

/-- Claim C4 counterexample: on a file that carries the header marker but
not the compiled-in constant, the constant substitution cannot be
performed, yet the rewrite does not fail: a partially rewritten content,
with only the header updated, is committed to the real file. -/
theorem claim4_counterexample :
    occursIn defineSub (("<?php /* Version: 1.0.0 */".data)) = false
    ∧ updatePluginVersion (some ("<?php /* Version: 1.0.0 */".data))
        (("1.0.1".data)) = some ("<?php /* Version: 1.0.1 */".data)
    ∧ ("<?php /* Version: 1.0.1 */".data) ≠ ("<?php /* Version: 1.0.0 */".data) := by
  refine ⟨by decide, by decide, by decide⟩

/-- Claim C4 as amended: the two substitutions are applied independently
to the in-memory copy and the result is always committed by one in-place
write; a substitution whose pattern does not occur silently leaves the
content unchanged instead of failing, so content carrying only one of the
two markers is committed partially rewritten; only a read failure aborts
the run before anything is written. -/
theorem claim4_substitutions_independent (content nv : List Char) :
    updatePluginVersion none nv = none
    ∧ updatePluginVersion (some content) nv
        = some (subDefine nv (subHeader nv content))
    ∧ (occursIn headerSub content = false → subHeader nv content = content)
    ∧ (occursIn defineSub content = false → subDefine nv content = content) :=
  ⟨rfl, rfl, fun h => subAll_no_match headerSub nv content h,
    fun h => subAll_no_match defineSub nv content h⟩

/-- Claim C4 witness: on content with neither marker, both substitutions
leave the content unchanged. -/
theorem claim4_witness :
    occursIn headerSub (("<?php echo 1; ?>".data)) = false
    ∧ subHeader (("2.0.0".data)) (("<?php echo 1; ?>".data))
        = ("<?php echo 1; ?>".data)
    ∧ subDefine (("2.0.0".data)) (("<?php echo 1; ?>".data))
        = ("<?php echo 1; ?>".data) :=
  ⟨by decide,
    (claim4_substitutions_independent ("<?php echo 1; ?>".data)
      ("2.0.0".data)).2.2.1 (by decide),
    (claim4_substitutions_independent ("<?php echo 1; ?>".data)
      ("2.0.0".data)).2.2.2 (by decide)⟩

/-- Claim C9: the clean version-not-found exit happens exactly when the
marker pattern occurs nowhere in the source text; when the pattern
matches but its digit run is not a valid three-part semantic version, the
parser error propagates uncaught instead. -/
theorem claim9_version_resolution (content : List Char) :
    (getCurrentVersion (some content) = VersionReadResult.exitNoMatch
      ↔ occursIn headerSub content = false)
    ∧ (∀ ds, searchHeader content = some ds → parseSemVer ds = none →
        getCurrentVersion (some content) = VersionReadResult.uncaughtParseError) := by
  constructor
  · rw [← searchHeader_eq_none_iff]
    cases h : searchHeader content with
    | none => simp [getCurrentVersion, h]
    | some ds =>
      cases hp : parseSemVer ds <;> simp [getCurrentVersion, h, hp]
  · intro ds hds hp
    simp [getCurrentVersion, hds, hp]

/-- Claim C9 witness: `Version: 1.2` matches the marker pattern, `1.2` is
not a valid three-part version, and the run ends in the uncaught parser
error. -/
theorem claim9_witness :
    searchHeader (("Version: 1.2".data)) = some (("1.2".data))
    ∧ parseSemVer (("1.2".data)) = none
    ∧ getCurrentVersion (some ("Version: 1.2".data))
        = VersionReadResult.uncaughtParseError :=
  ⟨by decide, by decide,
    (claim9_version_resolution ("Version: 1.2".data)).2 ("1.2".data)
      (by decide) (by decide)⟩

/-- The suffix of any name ending in `.zip` whose stem is nonempty. -/
theorem pathSuffix_append_zip (l : List Char) (hl : l ≠ []) :
    pathSuffix (l ++ ('.' :: 'z' :: 'i' :: 'p' :: [])) = '.' :: 'z' :: 'i' :: 'p' :: [] := by
  unfold pathSuffix
  simp [List.reverse_append, List.takeWhile_cons, List.dropWhile_cons,
    List.reverse_eq_nil_iff, hl]

/-- Claim C8: the archive's own file name carries the lowercase suffix
`.zip`, and no file entry of any built archive has a name with lowercase
suffix `.zip`; hence the output archive, and any archive left from an
earlier publish, is absent from the archive contents. -/
theorem claim8_zip_excluded (slug : String) :
    (∀ v : SemVer, fileSuffixLower (zipFileName slug v) = ".zip")
    ∧ (∀ rootParts cs arc n, ZipEntry.file arc ∈ createZip rootParts cs slug →
        arc.getLast? = some n → fileSuffixLower n ≠ ".zip") := by
  constructor
  · intro v
    unfold fileSuffixLower zipFileName
    rw [show (slug ++ "-" ++ SemVer.render v ++ ".zip").data
        = (slug.data ++ '-' :: (SemVer.render v).data)
          ++ ('.' :: 'z' :: 'i' :: 'p' :: []) by
      simp [String.data_append]]
    rw [pathSuffix_append_zip _ (by simp)]
    rfl
  · intro rootParts cs arc n hmem hlast
    rcases file_mem_createZip hmem with ⟨rel, fs, f, _, _, _, _, hext, _, harc⟩
    subst harc
    rw [show slug :: (rel ++ [f]) = (slug :: rel) ++ [f] from rfl,
      List.getLast?_concat] at hlast
    rw [← Option.some.inj hlast]
    intro hzip
    exact hext (hzip ▸ (by decide : (".zip" : String) ∈ EXCLUDE_EXTENSIONS))

/-- Claim C8 witness: the concrete archive name has suffix `.zip`, and an
archived file entry does not. -/
theorem claim8_witness :
    fileSuffixLower (zipFileName "hsportal-youtube-upload" ⟨1, 2, 3⟩) = ".zip"
    ∧ fileSuffixLower "index.php" ≠ ".zip" :=
  ⟨(claim8_zip_excluded "hsportal-youtube-upload").1 ⟨1, 2, 3⟩,
    (claim8_zip_excluded "hsportal-youtube-upload").2 (["home"])
      ([FSNode.file "index.php"]) (["hsportal-youtube-upload", "index.php"])
      "index.php" (by decide) (by decide)⟩

end Publish
